import Mathlib

/-!
Verification of the `assign` Go library (package assign): a reflection-based
engine that assigns values of an arbitrary Source to Go destination values.

The embedding is a deep model of the code in src/assign.go, src/source.go,
src/option.go and src/error.go:

- `GoKind` models `reflect.Kind` (restricted to the kinds the development
  exercises: bool, int, string, pointer, interface, struct, map, slice,
  array, chan, func, unsafe-pointer, invalid).
- `Ty` models Go destination types.  Named types (`Ty.tnamed`) are resolved
  through an environment `TyEnv`, which lets the model express recursive Go
  types such as `type Cycle struct { Struct *Cycle }`.  In well-formed Go a
  recursive occurrence always sits behind a pointer, map or slice, so
  `zeroVal` never needs to recurse through a name.
- `SVal` models a source value as seen through the `Source` interface of
  src/source.go (the `goSource` adapter over `reflect.Value`).  Reference
  values (pointer, map, slice) carry an address into a `Heap`, which models
  the underlying memory: this is what makes identity (`Pointer()`) and
  self-referential values expressible.  Address 0 plays the role of nil.
  `SVal.spanicker` models the test helper `panicker`, a Source whose
  `Pointer` method panics and whose every other method delegates to the
  wrapped Source.
- `DVal` models the destination value graph as a typed tree; assignment
  returns the updated tree (the Go code mutates through reflection).
- Machine `uintptr` tokens are modelled as `Nat`; Go `int` as `Int`.
- Panics are a separate result channel (`ResG.panicked`), converted to the
  `ErrorPanic` value only by `assignRecover` at the top of `To`, exactly as
  in the code.
- Non-termination (Go: unbounded recursion / stack overflow) is modelled by
  fuel: `assign` consumes one unit of fuel per recursive step and yields
  `none` when the fuel runs out, so "diverges" is "none for every fuel".
-/

namespace AssignModel

/-- Go reflection kinds used by the model (reflect.Kind). -/
inductive GoKind where
  | kinvalid
  | kbool
  | kint
  | kstr
  | kptr
  | kifc
  | kstruct
  | kmap
  | kslice
  | karray
  | kchan
  | kfunc
  | kuptr
deriving DecidableEq, Repr

/- Destination types (Go types as seen by the destination side).
`tstruct` carries a `FieldList` of (name, tag key/value pairs, exported flag,
type).  `tnamed` is a named type resolved through a `TyEnv`. -/
mutual
inductive Ty where
  | tbool
  | tint
  | tstr
  | tifc
  | tptr (elem : Ty)
  | tstruct (fields : FieldList)
  | tmap (key : Ty) (val : Ty)
  | tslice (elem : Ty)
  | tarray (size : Nat) (elem : Ty)
  | tnamed (name : String)
inductive FieldList where
  | fnil
  | fcons (name : String) (tags : List (String × String)) (exported : Bool)
      (ty : Ty) (rest : FieldList)
end

deriving instance DecidableEq for Ty, FieldList
deriving instance Repr for Ty, FieldList

/-- Environment giving the underlying type of each named type. -/
abbrev TyEnv := List (String × Ty)

/-- Resolve a named type one step (Go: a named type has the kind and
structure of its underlying type). -/
def resolveTy (delta : TyEnv) : Ty → Ty
  | .tnamed n =>
    match delta.find? (fun p => p.1 == n) with
    | some p => p.2
    | none => .tnamed n
  | t => t

/-- The reflection kind of a destination type. -/
def kindTy : Ty → GoKind
  | .tbool => .kbool
  | .tint => .kint
  | .tstr => .kstr
  | .tifc => .kifc
  | .tptr _ => .kptr
  | .tstruct _ => .kstruct
  | .tmap _ _ => .kmap
  | .tslice _ => .kslice
  | .tarray _ _ => .karray
  | .tnamed _ => .kinvalid

/- Source values, as exposed by the `Source` interface over a heap.
`sptr`, `smap`, `sslice`, `schan`, `sfunc`, `suptr` carry the identity
address returned by `Pointer()` (0 encodes nil).  `sifc` is a non-nil
interface wrapping a dynamic value, `snilifc` a nil interface.  `sinvalid`
is an invalid `reflect.Value` (e.g. a missing struct field).  `spanicker`
is the test Source whose `Pointer` panics and delegates everything else. -/
mutual
inductive SVal where
  | sbool (b : Bool)
  | sint (n : Int)
  | sstr (s : String)
  | sptr (a : Nat)
  | smap (a : Nat)
  | sslice (a : Nat)
  | schan (a : Nat)
  | sfunc (a : Nat)
  | suptr (a : Nat)
  | sstruct (fields : SFields)
  | sarray (elems : SList)
  | sifc (v : SVal)
  | snilifc
  | sinvalid
  | spanicker (inner : SVal)
inductive SFields where
  | snil
  | scons (name : String) (v : SVal) (rest : SFields)
inductive SList where
  | lnil
  | lcons (v : SVal) (rest : SList)
end

deriving instance DecidableEq for SVal, SFields, SList
deriving instance Repr for SVal, SFields, SList

/-- A heap cell: the pointee of a pointer, the entries of a map, or the
backing elements of a slice. -/
inductive Cell where
  | cellVal (v : SVal)
  | cellMap (entries : List (SVal × SVal))
  | cellSlice (elems : SList)
deriving DecidableEq, Repr

/-- The source-side heap: addresses to cells. -/
abbrev Heap := List (Nat × Cell)

def heapFind (H : Heap) (a : Nat) : Option Cell :=
  match H.find? (fun p => p.1 == a) with
  | some p => some p.2
  | none => none

/-- Source.Kind (reflect kind of the source; the panicker promotes the
wrapped Source's Kind). -/
def kindOf : SVal → GoKind
  | .sbool _ => .kbool
  | .sint _ => .kint
  | .sstr _ => .kstr
  | .sptr _ => .kptr
  | .smap _ => .kmap
  | .sslice _ => .kslice
  | .schan _ => .kchan
  | .sfunc _ => .kfunc
  | .suptr _ => .kuptr
  | .sstruct _ => .kstruct
  | .sarray _ => .karray
  | .sifc _ => .kifc
  | .snilifc => .kifc
  | .sinvalid => .kinvalid
  | .spanicker i => kindOf i

/- reflect.Value.IsZero: scalar zero, nil reference, all-fields /
all-elements zero for structs and arrays, nil interface. -/
mutual
def isZeroS : SVal → Bool
  | .sbool b => !b
  | .sint n => n == 0
  | .sstr s => s == ""
  | .sptr a => a == 0
  | .smap a => a == 0
  | .sslice a => a == 0
  | .schan a => a == 0
  | .sfunc a => a == 0
  | .suptr a => a == 0
  | .sstruct fs => isZeroFields fs
  | .sarray es => isZeroList es
  | .sifc _ => false
  | .snilifc => true
  | .sinvalid => false
  | .spanicker i => isZeroS i
def isZeroFields : SFields → Bool
  | .snil => true
  | .scons _ v r => isZeroS v && isZeroFields r
def isZeroList : SList → Bool
  | .lnil => true
  | .lcons v r => isZeroS v && isZeroList r
end

/-- goSource.Skip: `!v.val.IsValid() || v.val.IsZero()` (src/source.go);
the panicker promotes the wrapped Source's Skip. -/
def skip : SVal → Bool
  | .sinvalid => true
  | .spanicker i => skip i
  | v => isZeroS v

/-- Source.Elem: contained value of a pointer (heap pointee) or interface.
Invalid outside those kinds (the engine only calls it on them). -/
def elemS (H : Heap) : SVal → SVal
  | .sptr a =>
    match heapFind H a with
    | some (.cellVal v) => v
    | _ => .sinvalid
  | .sifc v => v
  | .spanicker i => elemS H i
  | _ => .sinvalid

def findFieldS : SFields → String → SVal
  | .snil, _ => .sinvalid
  | .scons n v r, name => if n == name then v else findFieldS r name

/-- Source.FieldByName: the named field of a struct source; an invalid
value when the field is missing (reflect returns the zero Value). -/
def fieldByNameS (H : Heap) : SVal → String → SVal
  | .sstruct fs, name => findFieldS fs name
  | .spanicker i, name => fieldByNameS H i name
  | _, _ => .sinvalid

def lenSL : SList → Nat
  | .lnil => 0
  | .lcons _ r => lenSL r + 1

/-- Source.Len for maps, slices and arrays. -/
def lenS (H : Heap) : SVal → Nat
  | .smap a =>
    match heapFind H a with
    | some (.cellMap es) => es.length
    | _ => 0
  | .sslice a =>
    match heapFind H a with
    | some (.cellSlice es) => lenSL es
    | _ => 0
  | .sarray es => lenSL es
  | .spanicker i => lenS H i
  | _ => 0

def getSL : SList → Nat → SVal
  | .lnil, _ => .sinvalid
  | .lcons v _, 0 => v
  | .lcons _ r, n + 1 => getSL r n

/-- Source.Index for slices and arrays. -/
def indexS (H : Heap) : SVal → Nat → SVal
  | .sslice a, i =>
    match heapFind H a with
    | some (.cellSlice es) => getSL es i
    | _ => .sinvalid
  | .sarray es, i => getSL es i
  | .spanicker inner, i => indexS H inner i
  | _, _ => .sinvalid

/-- Source.MapRange, materialised as the list of key/value pairs. -/
def mapEntriesS (H : Heap) : SVal → List (SVal × SVal)
  | .smap a =>
    match heapFind H a with
    | some (.cellMap es) => es
    | _ => []
  | .spanicker i => mapEntriesS H i
  | _ => []

/-- Source.Pointer: the identity token of a reference value.  The panicker
panics (src/assign_test.go); the engine only calls Pointer on kinds in
ptrSet, so the catch-all 0 is never reached. -/
def pointerOf : SVal → Except String Nat
  | .spanicker _ => .error "panicker"
  | .sptr a => .ok a
  | .smap a => .ok a
  | .sslice a => .ok a
  | .schan a => .ok a
  | .sfunc a => .ok a
  | .suptr a => .ok a
  | _ => .ok 0

/-- Source.Interface: the boxed dynamic value (the panicker delegates). -/
def unbox : SVal → SVal
  | .spanicker i => unbox i
  | v => v

/-- ptrSet of src/assign.go: kinds that carry an identity pointer. -/
def inPtrSet : GoKind → Bool
  | .kptr => true
  | .kmap => true
  | .kslice => true
  | .kchan => true
  | .kfunc => true
  | .kuptr => true
  | _ => false

/-- elemSet of src/assign.go: kinds unwrapped via Elem before dispatch. -/
def inElemSet : GoKind → Bool
  | .kptr => true
  | .kifc => true
  | _ => false

/-- listSet of src/assign.go: source kinds accepted by slice/array
destinations. -/
def inListSet : GoKind → Bool
  | .kslice => true
  | .karray => true
  | _ => false

/- Destination values (typed trees).  `vifc` is an interface slot holding
a boxed dynamic value (set by `Convert` to the empty interface). -/
mutual
inductive DVal where
  | vbool (b : Bool)
  | vint (n : Int)
  | vstr (s : String)
  | vnilptr
  | vptr (v : DVal)
  | vnilifc
  | vifc (dyn : SVal)
  | vstruct (fields : DList)
  | vnilmap
  | vmap (entries : DPairs)
  | vnilslice
  | vslice (elems : DList)
  | varray (elems : DList)
inductive DList where
  | dnil
  | dcons (v : DVal) (rest : DList)
inductive DPairs where
  | pnil
  | pcons (k : DVal) (v : DVal) (rest : DPairs)
end

deriving instance DecidableEq for DVal, DList, DPairs
deriving instance Repr for DVal, DList, DPairs

def DList.ofL : List DVal → DList
  | [] => .dnil
  | v :: r => .dcons v (DList.ofL r)

def dreplicate : Nat → DVal → DList
  | 0, _ => .dnil
  | n + 1, v => .dcons v (dreplicate n v)

/- reflect.Zero / reflect.New: the zero value of a type.  A bare named
type only occurs behind a pointer/map/slice in well-formed Go (recursive
by-value types are illegal), so its zero value is never consulted; callers
resolve names first. -/
mutual
def zeroVal : Ty → DVal
  | .tbool => .vbool false
  | .tint => .vint 0
  | .tstr => .vstr ""
  | .tifc => .vnilifc
  | .tptr _ => .vnilptr
  | .tstruct fl => .vstruct (zeroFields fl)
  | .tmap _ _ => .vnilmap
  | .tslice _ => .vnilslice
  | .tarray n et => .varray (dreplicate n (zeroVal et))
  | .tnamed _ => .vstruct .dnil
def zeroFields : FieldList → DList
  | .fnil => .dnil
  | .fcons _ _ _ ty r => .dcons (zeroVal ty) (zeroFields r)
end

/-- reflect SetMapIndex on the model's association list: replace the value
under an existing key (the stored key is kept), else append. -/
def mapSet : DPairs → DVal → DVal → DPairs
  | .pnil, k, v => .pcons k v .pnil
  | .pcons k0 v0 r, k, v =>
    if k0 == k then .pcons k0 v r else .pcons k0 v0 (mapSet r k v)

/-- metadata of src/assign.go: the visited identity set and the current
token (uintptr 0 is the empty sentinel). -/
structure Metadata where
  visited : List Nat
  cur : Nat
deriving DecidableEq, Repr

/-- Result of the cycle check: a panic escaping from `Source.Pointer`, or a
cycle flag together with the updated metadata. -/
inductive VisitRes where
  | vpanic (payload : String)
  | vres (cyc : Bool) (md : Metadata)
deriving DecidableEq, Repr

/-- visit of src/assign.go: tracks pointers and checks for cyclical paths.
With cycle checks disabled it returns immediately (Pointer is not called).
A kind without a pointer resets the current token.  A token equal to the
current token is the value the destination walk is still unwinding through
and is not recorded.  Otherwise the token becomes current and a cycle is
reported exactly when it is already in the visited set. -/
def visit (cycle : Bool) (v : SVal) (md : Metadata) : VisitRes :=
  if !cycle then .vres false md
  else if !(inPtrSet (kindOf v)) then .vres false ⟨md.visited, 0⟩
  else
    match pointerOf v with
    | .error p => .vpanic p
    | .ok ptr =>
      if ptr == md.cur then .vres false md
      else if md.visited.contains ptr then .vres true ⟨md.visited, ptr⟩
      else .vres false ⟨ptr :: md.visited, ptr⟩

/-- The two recoverable error kinds produced inside the recursive walk
(ErrorType and ErrorCycle of src/error.go).  ErrorType's destination type
is `none` when the Go value passed was a nil pointer. -/
inductive AErr where
  | typeErr (dst : Option Ty) (src : GoKind)
  | cycleErr (dst : Ty) (src : GoKind)
deriving DecidableEq, Repr

/-- Result of one recursive assignment: the updated destination with the
metadata, an error, or a panic travelling up to the recover boundary. -/
inductive ResG (α : Type) where
  | ok (a : α) (md : Metadata)
  | err (e : AErr)
  | panicked (payload : String)
deriving DecidableEq, Repr

/-- Sequencing in the result: fuel exhaustion, errors and panics
short-circuit exactly like Go's early returns / propagating panics. -/
def bindR {α β : Type} (r : Option (ResG α)) (k : α → Metadata → Option (ResG β)) :
    Option (ResG β) :=
  match r with
  | none => none
  | some (.ok a md) => k a md
  | some (.err e) => some (.err e)
  | some (.panicked p) => some (.panicked p)

/-- Assigner of src/assign.go: the root Source, the tag keys for struct
field lookup, and the cycle-check toggle. -/
structure Assigner where
  src : SVal
  tags : List String
  cycle : Bool
deriving DecidableEq, Repr

/-- From of src/assign.go: defaults are the single `assign` tag and cycle
checks enabled; options are applied in order. -/
def From (src : SVal) (options : List (Assigner → Assigner)) : Assigner :=
  options.foldl (fun a o => o a) ⟨src, ["assign"], true⟩

/-- WithTags of src/option.go: appends tag keys after the default. -/
def WithTags (ts : List String) : Assigner → Assigner :=
  fun a => ⟨a.src, a.tags ++ ts, a.cycle⟩

/-- WithoutCycle of src/option.go: disables the cyclical path check. -/
def WithoutCycle : Assigner → Assigner :=
  fun a => ⟨a.src, a.tags, false⟩

/-- reflect.StructTag.Get: the value stored under a tag key, "" if absent. -/
def tagGet (tags : List (String × String)) (key : String) : String :=
  match tags.find? (fun p => p.1 == key) with
  | some p => p.2
  | none => ""

def nameOfAux (ftags : List (String × String)) (fname : String) :
    List String → String
  | [] => fname
  | k :: ks =>
    if tagGet ftags k != "" then tagGet ftags k else nameOfAux ftags fname ks

/-- nameOf of src/assign.go: the first name matched by tag key, otherwise
the field's own name. -/
def nameOf (cfg : Assigner) (ftags : List (String × String)) (fname : String) :
    String :=
  nameOfAux ftags fname cfg.tags

/-- assignPointer: allocate a zero pointee when nil, then assign into the
pointee (the dest slot's kind is Ptr, so any non-vptr value stands for
nil). -/
def assignPointer (rec : Ty → DVal → Bool → SVal → Metadata → Option (ResG DVal))
    (delta : TyEnv) (et : Ty) (dv : DVal) (sv : SVal) (md : Metadata) :
    Option (ResG DVal) :=
  let pv := match dv with
    | .vptr w => w
    | _ => zeroVal (resolveTy delta et)
  bindR (rec et pv true sv md) (fun w md2 => some (.ok (.vptr w) md2))

/-- assignBasic: box the source value; fail when its type is not
convertible to the destination type, otherwise convert and set.  The
conversion rules mirror Go for the modelled universe: identical basic
kinds, integer-to-string (the rune conversion, U+FFFD when the code point
is invalid), and anything to the empty interface. -/
def goRuneString (n : Int) : String :=
  if 0 ≤ n && (n < 55296 || (57344 ≤ n && n ≤ 1114111)) then
    String.mk [Char.ofNat n.toNat]
  else "�"

def convertibleToB (b : SVal) (t : Ty) : Bool :=
  match t, b with
  | .tifc, _ => true
  | .tbool, .sbool _ => true
  | .tint, .sint _ => true
  | .tstr, .sstr _ => true
  | .tstr, .sint _ => true
  | _, _ => false

def convertB (b : SVal) (t : Ty) : DVal :=
  match t, b with
  | .tifc, v => .vifc v
  | .tbool, .sbool x => .vbool x
  | .tint, .sint n => .vint n
  | .tstr, .sstr s => .vstr s
  | .tstr, .sint n => .vstr (goRuneString n)
  | _, _ => .vnilifc

def assignBasic (t : Ty) (rt : Ty) (sv : SVal) (md : Metadata) :
    Option (ResG DVal) :=
  let b := unbox sv
  if convertibleToB b rt then some (.ok (convertB b rt) md)
  else some (.err (.typeErr (some t) (kindOf b)))

/-- assignStruct's field loop: for each destination field, resolve the
lookup name, fetch the source field by that name, and recurse; a field's
slot is settable exactly when the field is exported. -/
def assignFields (rec : Ty → DVal → Bool → SVal → Metadata → Option (ResG DVal))
    (cfg : Assigner) (H : Heap) (sv : SVal) :
    FieldList → DList → Metadata → Option (ResG DList)
  | .fnil, rest, md => some (.ok rest md)
  | _, .dnil, md => some (.ok .dnil md)
  | .fcons n tg ex ty fr, .dcons fv dr, md =>
    bindR (rec ty fv ex (fieldByNameS H sv (nameOf cfg tg n)) md) (fun fv2 md2 =>
      bindR (assignFields rec cfg H sv fr dr md2) (fun dr2 md3 =>
        some (.ok (.dcons fv2 dr2) md3)))

/-- assignStruct: the source must be a struct, else a type error. -/
def assignStruct (rec : Ty → DVal → Bool → SVal → Metadata → Option (ResG DVal))
    (cfg : Assigner) (H : Heap) (t : Ty) (fl : FieldList) (dv : DVal) (sv : SVal)
    (md : Metadata) : Option (ResG DVal) :=
  if kindOf sv != .kstruct then some (.err (.typeErr (some t) (kindOf sv)))
  else
    let fvs := match dv with
      | .vstruct l => l
      | _ => .dnil
    bindR (assignFields rec cfg H sv fl fvs md) (fun l md2 =>
      some (.ok (.vstruct l) md2))

/-- assignMap's entry loop: build fresh zero key and value slots of the
destination's key/value types, recurse into each, then insert. -/
def assignEntries (rec : Ty → DVal → Bool → SVal → Metadata → Option (ResG DVal))
    (delta : TyEnv) (kt vt : Ty) :
    List (SVal × SVal) → DPairs → Metadata → Option (ResG DPairs)
  | [], es, md => some (.ok es md)
  | (sk, sval) :: rest, es, md =>
    bindR (rec kt (zeroVal (resolveTy delta kt)) true sk md) (fun dk md2 =>
      bindR (rec vt (zeroVal (resolveTy delta vt)) true sval md2) (fun dval md3 =>
        assignEntries rec delta kt vt rest (mapSet es dk dval) md3))

/-- assignMap: the source must be a map, else a type error; a nil
destination map is allocated first. -/
def assignMap (rec : Ty → DVal → Bool → SVal → Metadata → Option (ResG DVal))
    (delta : TyEnv) (t : Ty) (kt vt : Ty) (dv : DVal) (sv : SVal) (H : Heap)
    (md : Metadata) : Option (ResG DVal) :=
  if kindOf sv != .kmap then some (.err (.typeErr (some t) (kindOf sv)))
  else
    let es0 := match dv with
      | .vmap es => es
      | _ => .pnil
    bindR (assignEntries rec delta kt vt (mapEntriesS H sv) es0 md) (fun es md2 =>
      some (.ok (.vmap es) md2))

/-- assignList: copy `min(sourceLength, destLength)` elements positionally
(the loop walks the destination elements with index `i` and stops at the
source length `n`). -/
def assignList (rec : Ty → DVal → Bool → SVal → Metadata → Option (ResG DVal))
    (et : Ty) (sv : SVal) (H : Heap) :
    Nat → Nat → DList → Metadata → Option (ResG DList)
  | _, _, .dnil, md => some (.ok .dnil md)
  | i, n, .dcons d ds, md =>
    if i < n then
      bindR (rec et d true (indexS H sv i) md) (fun d2 md2 =>
        bindR (assignList rec et sv H (i + 1) n ds md2) (fun ds2 md3 =>
          some (.ok (.dcons d2 ds2) md3)))
    else some (.ok (.dcons d ds) md)

/-- assignSlice: source must be slice or array; a nil destination slice is
allocated with the source's length (zero-filled), then list-copy. -/
def assignSlice (rec : Ty → DVal → Bool → SVal → Metadata → Option (ResG DVal))
    (delta : TyEnv) (t : Ty) (et : Ty) (dv : DVal) (sv : SVal) (H : Heap)
    (md : Metadata) : Option (ResG DVal) :=
  if !(inListSet (kindOf sv)) then some (.err (.typeErr (some t) (kindOf sv)))
  else
    let es0 := match dv with
      | .vslice es => es
      | _ => dreplicate (lenS H sv) (zeroVal (resolveTy delta et))
    bindR (assignList rec et sv H 0 (lenS H sv) es0 md) (fun es md2 =>
      some (.ok (.vslice es) md2))

/-- assignArray: source must be slice or array; no allocation, list-copy. -/
def assignArray (rec : Ty → DVal → Bool → SVal → Metadata → Option (ResG DVal))
    (t : Ty) (et : Ty) (dv : DVal) (sv : SVal) (H : Heap) (md : Metadata) :
    Option (ResG DVal) :=
  if !(inListSet (kindOf sv)) then some (.err (.typeErr (some t) (kindOf sv)))
  else
    let es0 := match dv with
      | .varray es => es
      | _ => .dnil
    bindR (assignList rec et sv H 0 (lenS H sv) es0 md) (fun es md2 =>
      some (.ok (.varray es) md2))

/-- assign of src/assign.go, with fuel: one unit per recursive step, `none`
when exhausted (modelling unbounded recursion).  Order of the step exactly
as in the code: the CanSet/Skip no-op first, then the cycle check, then the
pointer/interface source unwrap, then dispatch on the destination kind. -/
def assign (delta : TyEnv) (cfg : Assigner) (H : Heap) :
    Nat → Ty → DVal → Bool → SVal → Metadata → Option (ResG DVal)
  | 0, _, _, _, _, _ => none
  | f + 1, t, dv, canSet, sv, md =>
    if !canSet || skip sv then some (.ok dv md)
    else
      match visit cfg.cycle sv md with
      | .vpanic p => some (.panicked p)
      | .vres true _ => some (.err (.cycleErr t (kindOf sv)))
      | .vres false md1 =>
        if inElemSet (kindOf sv) then
          assign delta cfg H f t dv canSet (elemS H sv) md1
        else
          match resolveTy delta t with
          | .tptr et => assignPointer (assign delta cfg H f) delta et dv sv md1
          | .tstruct fl => assignStruct (assign delta cfg H f) cfg H t fl dv sv md1
          | .tmap kt vt => assignMap (assign delta cfg H f) delta t kt vt dv sv H md1
          | .tslice et => assignSlice (assign delta cfg H f) delta t et dv sv H md1
          | .tarray _ et => assignArray (assign delta cfg H f) t et dv sv H md1
          | rt => assignBasic t rt sv md1

/-- The three public error kinds of src/error.go. -/
inductive AssignError where
  | errorType (dst : Option Ty) (src : GoKind)
  | errorCycle (dst : Ty) (src : GoKind)
  | errorPanic (payload : String)
deriving DecidableEq, Repr

/-- assignRecover of src/assign.go: the single protective boundary at the
top of a call.  A panic escaping the walk becomes ErrorPanic carrying the
raw payload; ordinary results pass through.  On success the updated
destination pointee is returned (the Go code mutates it in place). -/
def assignRecover (r : Option (ResG DVal)) : Option (Except AssignError DVal) :=
  match r with
  | none => none
  | some (.ok w _) => some (.ok w)
  | some (.err (.typeErr d s)) => some (.error (.errorType d s))
  | some (.err (.cycleErr d s)) => some (.error (.errorCycle d s))
  | some (.panicked p) => some (.error (.errorPanic p))

/-- The metadata created by To: seeded with the destination root's
identity when cycle checks are enabled (Go passes nil metadata otherwise;
the empty metadata is then never consulted). -/
def initMeta (cycle : Bool) (rootAddr : Nat) : Metadata :=
  if cycle then ⟨[rootAddr], 0⟩ else ⟨[], 0⟩

/-- To of src/assign.go.  The destination argument is a value of type `t`
whose address-like identity is `rootAddr`; a non-pointer type fails with a
type error carrying the type, a nil pointer with a type error carrying no
type, both before any traversal (no fuel is consumed).  Otherwise the walk
runs inside the recover boundary and the updated pointee is returned. -/
def To (delta : TyEnv) (cfg : Assigner) (H : Heap) (fuel : Nat) (rootAddr : Nat)
    (t : Ty) (dv : DVal) : Option (Except AssignError DVal) :=
  match resolveTy delta t with
  | .tptr et =>
    match dv with
    | .vptr w =>
      assignRecover
        (assign delta cfg H fuel et w true cfg.src (initMeta cfg.cycle rootAddr))
    | _ => some (.error (.errorType none (kindOf cfg.src)))
  | _ => some (.error (.errorType (some t) (kindOf cfg.src)))

/-- ToFrom of src/assign.go: one-shot form. -/
def ToFrom (delta : TyEnv) (H : Heap) (fuel : Nat) (rootAddr : Nat) (t : Ty)
    (dv : DVal) (src : SVal) (options : List (Assigner → Assigner)) :
    Option (Except AssignError DVal) :=
  To delta (From src options) H fuel rootAddr t dv


/-! ## Concrete source structures and destinations used by the claims -/

open Ty DVal SVal Cell GoKind

/-- The recursive Go type `type Cycle struct { Struct *Cycle }`. -/
def deltaC : TyEnv :=
  [("Cycle", tstruct (.fcons "Struct" [] true (tptr (tnamed "Cycle")) .fnil))]

/-- A struct pointing to itself: heap address 1 holds a struct whose field
`Struct` points back to address 1. -/
def HC : Heap := [(1, cellVal (sstruct (.scons "Struct" (sptr 1) .snil)))]

/-- A map containing itself as a value: address 21 holds a map whose only
entry wraps the map itself in an interface. -/
def HM : Heap := [(21, cellMap [(sstr "k", sifc (smap 21))])]

/-- A slice containing a pointer to itself: address 31 holds the slice's
backing elements, whose only element is an interface wrapping a pointer
(address 32) to the slice header. -/
def HS : Heap :=
  [(31, cellSlice (.lcons (sifc (sptr 32)) .lnil)), (32, cellVal (sslice 31))]

/-- Heap for the panicker test: a pointer at address 3 to the int 7. -/
def H8 : Heap := [(3, cellVal (sint 7))]

/-- Two sibling struct fields referencing one shared pointer (address 7):
a DAG with sharing, not a cycle. -/
def H10 : Heap := [(7, cellVal (sint 5))]

def src10 : SVal := sstruct (.scons "A" (sptr 7) (.scons "B" (sptr 7) .snil))

def t10 : Ty :=
  tptr (tstruct (.fcons "A" [] true (tptr tint)
    (.fcons "B" [] true (tptr tint) .fnil)))

/-- A one-entry source map at address 11. -/
def H9 : Heap := [(11, cellMap [(sstr "k", sint 5)])]

/-! ## Claim C2: the visit function and the seeding of the visited set -/

/-- The cycle-check behaviour as worded by the spec (section 4.3), for the
cycle-enabled mode: no identity kind resets the current token; a token
equal to the current token is not yet a revisit; otherwise the token
becomes current and a cycle is reported exactly when the token is already
in the visited set, which otherwise grows by the token. -/
def visitSpec (v : SVal) (md : Metadata) : VisitRes :=
  if !(inPtrSet (kindOf v)) then .vres false ⟨md.visited, 0⟩
  else
    match pointerOf v with
    | .error p => .vpanic p
    | .ok tok =>
      if tok == md.cur then .vres false md
      else if md.visited.contains tok then .vres true ⟨md.visited, tok⟩
      else .vres false ⟨tok :: md.visited, tok⟩

/-- Claim C2: with cycle detection enabled, `visit` behaves exactly as the
spec describes it — non-identity kinds reset the current token and return
false; an identity token equal to the current token returns false without
recording; otherwise the token becomes current and a cycle is reported
exactly when the token is already in the visited set, which is otherwise
extended.  The metadata of a To call is seeded with the destination root's
identity and an empty current token.  (`visit` is invoked at the start of
every step of `assign`, after the CanSet/Skip no-op check, see `assign`.) -/
theorem visit_matches_spec :
    (∀ v md, visit true v md = visitSpec v md) ∧
    (∀ root, initMeta true root = ⟨[root], 0⟩) := by
  constructor
  · intro v md
    simp [visit, visitSpec]
  · intro root
    simp [initMeta]

/-! ## Claim C3: non-pointer and nil-pointer destinations fail early -/

/-- Claim C3: a To call whose destination is not a pointer fails with a
type error carrying the destination's type and the source's kind; a To
call on a nil pointer fails with a type error carrying no type (nil type
marker) and the source's kind.  The statement holds for every fuel,
including fuel 0, while any traversal at all consumes fuel: the error is
produced before any traversal and hence before any mutation of the
destination.  ToFrom delegates to To. -/
theorem to_nonpointer_fails :
    (∀ delta (cfg : Assigner) H fuel root t dv,
      kindTy (resolveTy delta t) ≠ .kptr →
      To delta cfg H fuel root t dv =
        some (.error (.errorType (some t) (kindOf cfg.src)))) ∧
    (∀ delta (cfg : Assigner) H fuel root t et,
      resolveTy delta t = .tptr et →
      To delta cfg H fuel root t .vnilptr =
        some (.error (.errorType none (kindOf cfg.src)))) ∧
    (∀ delta H fuel root t dv src options,
      ToFrom delta H fuel root t dv src options =
        To delta (From src options) H fuel root t dv) := by
  refine ⟨?_, ?_, ?_⟩
  · intro delta cfg H fuel root t dv hk
    unfold To
    cases h : resolveTy delta t <;> simp_all [kindTy]
  · intro delta cfg H fuel root t et h
    unfold To
    rw [h]
  · intro delta H fuel root t dv src options
    rfl

/-- Witness for C3 at concrete inputs, with fuel 0 (no step of the walk
can run): assigning from a bool source to an int (non-pointer) destination
and to a nil pointer destination. -/
theorem to_nonpointer_fails_witness :
    To [] (From (sbool true) []) [] 0 999 tint (vint 5) =
      some (.error (.errorType (some tint) kbool)) ∧
    To [] (From (sbool true) []) [] 0 999 (tptr tint) .vnilptr =
      some (.error (.errorType none kbool)) :=
  ⟨to_nonpointer_fails.1 [] (From (sbool true) []) [] 0 999 tint (vint 5)
      (by decide),
   to_nonpointer_fails.2.1 [] (From (sbool true) []) [] 0 999 (tptr tint) tint
      rfl⟩

/-! ## Claim C4: unsettable destinations and skipped sources are no-ops -/

/-- Claim C4: at any depth and for any fuel, a recursive step whose
destination slot is not settable, or whose source reports Skip, succeeds
immediately and returns the destination value and metadata unchanged.
For the default Go-value source, Skip is precisely invalid-or-zero
(`skip`/`isZeroS`). -/
theorem assign_noop_when_unsettable_or_skip :
    ∀ delta cfg H f t dv cs sv md, cs = false ∨ skip sv = true →
      assign delta cfg H (f + 1) t dv cs sv md = some (.ok dv md) := by
  intro delta cfg H f t dv cs sv md h
  rcases h with h | h <;> simp [assign, h]

/-- Witness for C4: an unexported (unsettable) destination field with a
live source, and a zero-valued (skipped) source into a settable slot, both
leave the destination value 41 unchanged. -/
theorem assign_noop_witness :
    assign [] (From (sint 9) []) [] 4 tint (vint 41) false (sint 9) ⟨[], 0⟩ =
      some (.ok (vint 41) ⟨[], 0⟩) ∧
    assign [] (From (sint 0) []) [] 4 tint (vint 41) true (sint 0) ⟨[], 0⟩ =
      some (.ok (vint 41) ⟨[], 0⟩) :=
  ⟨assign_noop_when_unsettable_or_skip [] (From (sint 9) []) [] 3 tint (vint 41)
      false (sint 9) ⟨[], 0⟩ (Or.inl rfl),
   assign_noop_when_unsettable_or_skip [] (From (sint 0) []) [] 3 tint (vint 41)
      true (sint 0) ⟨[], 0⟩ (Or.inr (by decide))⟩


/-! ## Claim C7: struct field name resolution by tag priority -/

/-- The field-name resolution as worded by the spec (section 4.5): try
each configured key in order, take the first key whose tag value is
present on the field, else fall back to the field's own declared name. -/
def resolveNameSpec (ftags : List (String × String)) (fname : String) :
    List String → String
  | [] => fname
  | k :: ks =>
    if tagGet ftags k != "" then tagGet ftags k
    else resolveNameSpec ftags fname ks

lemma nameOfAux_eq_spec (ftags : List (String × String)) (fname : String) :
    ∀ keys, nameOfAux ftags fname keys = resolveNameSpec ftags fname keys := by
  intro keys
  induction keys with
  | nil => rfl
  | cons k ks ih => simp [nameOfAux, resolveNameSpec, ih]

/-- The destination struct of the repository's tag test: field
`FooGoToBar` carries the tag `assign:"BarGoToFoo"` and vice versa. -/
def tTags : Ty :=
  tstruct (.fcons "FooGoToBar" [("assign", "BarGoToFoo")] true tstr
    (.fcons "BarGoToFoo" [("assign", "FooGoToBar")] true tstr .fnil))

def srcTags : SVal :=
  sstruct (.scons "FooGoToBar" (sstr "one")
    (.scons "BarGoToFoo" (sstr "two") .snil))

/-- Claim C7: for an Assigner built by From with keys appended via
WithTags, the lookup name of a destination field is obtained by trying the
default key `assign` first and then the appended keys in order, taking the
first key whose tag value is present; if none matches, the field's own
declared name is used (this is `resolveNameSpec` applied to
`"assign" :: keys`).  The destination field is then populated from the
source field retrieved by that resolved name: with the swapped `assign`
tags of the repository's test, the fields arrive crosswise. -/
theorem nameOf_tag_priority :
    (∀ src keys ftags fname,
      nameOf (From src [WithTags keys]) ftags fname =
        resolveNameSpec ftags fname ("assign" :: keys)) ∧
    (∀ src ftags fname,
      nameOf (From src []) ftags fname = resolveNameSpec ftags fname ["assign"]) ∧
    To [] (From srcTags []) [] 50 999 (tptr tTags) (.vptr (zeroVal tTags)) =
      some (.ok (vstruct (.dcons (vstr "two") (.dcons (vstr "one") .dnil)))) := by
  refine ⟨?_, ?_, ?_⟩
  · intro src keys ftags fname
    simp [nameOf, From, WithTags, nameOfAux_eq_spec]
  · intro src ftags fname
    simp [nameOf, From, nameOfAux_eq_spec]
  · rfl

/-! ## Claim C8: the single panic-recovery boundary -/

/-- Claim C8: a To call on a well-formed pointer destination returns the
internal-fault error ErrorPanic with payload p exactly when the recursive
walk `assign` ends in a panic with payload p — the conversion happens only
at the boundary `assignRecover` installed once at the top of To (inside
the walk, `AErr` cannot even express a panic; the panic channel of `ResG`
travels through every recursive step untouched).  Concretely, the
repository's panicker Source (whose Pointer panics) makes To return
ErrorPanic "panicker" when cycle checks are enabled. -/
lemma To_ptr_eq (delta : TyEnv) (cfg : Assigner) (H : Heap) (fuel root : Nat)
    (t et : Ty) (w : DVal) (h : resolveTy delta t = .tptr et) :
    To delta cfg H fuel root t (.vptr w) =
      assignRecover
        (assign delta cfg H fuel et w true cfg.src (initMeta cfg.cycle root)) := by
  unfold To
  rw [h]

theorem to_panic_boundary :
    (∀ delta (cfg : Assigner) H fuel root t et w p,
      resolveTy delta t = .tptr et →
      (To delta cfg H fuel root t (.vptr w) = some (.error (.errorPanic p)) ↔
        assign delta cfg H fuel et w true cfg.src (initMeta cfg.cycle root) =
          some (.panicked p))) ∧
    To [] (From (spanicker (sptr 3)) []) H8 50 999 (tptr (tptr tint))
        (.vptr .vnilptr) =
      some (.error (.errorPanic "panicker")) := by
  constructor
  · intro delta cfg H fuel root t et w p h
    rw [To_ptr_eq delta cfg H fuel root t et w h]
    constructor
    · intro hr
      cases ha : assign delta cfg H fuel et w true cfg.src
          (initMeta cfg.cycle root) with
      | none => rw [ha] at hr; simp [assignRecover] at hr
      | some r =>
        rw [ha] at hr
        cases r with
        | ok a md => simp [assignRecover] at hr
        | err e => cases e <;> simp [assignRecover] at hr
        | panicked q => simp [assignRecover] at hr; rw [hr]
    · intro ha
      rw [ha]
      rfl
  · rfl

/-- Witness for C8: the equivalence instantiated at the concrete panicker
run (fuel 1 already suffices: the panic happens in the very first cycle
check). -/
theorem to_panic_boundary_witness :
    To [] (From (spanicker (sptr 3)) []) H8 1 999 (tptr (tptr tint))
        (.vptr .vnilptr) =
      some (.error (.errorPanic "panicker")) :=
  (to_panic_boundary.1 [] (From (spanicker (sptr 3)) []) H8 1 999
      (tptr (tptr tint)) (tptr tint) .vnilptr "panicker" rfl).mpr (by decide)


/-! ## Claim C6: basic-kind conversion -/

def isBasicTy : Ty → Bool
  | .tbool => true
  | .tint => true
  | .tstr => true
  | _ => false

def isBasicS : SVal → Bool
  | .sbool _ => true
  | .sint _ => true
  | .sstr _ => true
  | _ => false

/-- The metadata after a visit of a non-identity source: the current token
is reset when cycle checks run, untouched otherwise. -/
def mdReset (cycle : Bool) (md : Metadata) : Metadata :=
  if cycle then ⟨md.visited, 0⟩ else md

/-- One recursive step on a live (non-skipped) basic source into a basic
destination slot: set the converted value when convertible, else a type
error — independently of the slot's prior value. -/
lemma assign_basic_step (delta : TyEnv) (cfg : Assigner) (H : Heap) (f : Nat)
    (t : Ty) (dv : DVal) (b : SVal) (md : Metadata)
    (hbt : isBasicTy t = true) (hbs : isBasicS b = true)
    (hsk : skip b = false) :
    assign delta cfg H (f + 1) t dv true b md =
      if convertibleToB b t then some (.ok (convertB b t) (mdReset cfg.cycle md))
      else some (.err (.typeErr (some t) (kindOf b))) := by
  cases b <;> simp [isBasicS] at hbs <;>
    cases t <;> simp [isBasicTy] at hbt <;>
      cases hc : cfg.cycle <;>
        simp_all [assign, visit, skip, isZeroS, inPtrSet, inElemSet, kindOf,
          resolveTy, assignBasic, unbox, mdReset, convertibleToB]

/-- Every basic int-source step, including the skipped zero (used by the
list-copy lemmas of claim C5). -/
lemma assign_int_step (delta : TyEnv) (cfg : Assigner) (H : Heap) (f : Nat)
    (d : DVal) (x : Int) (md : Metadata) :
    assign delta cfg H (f + 1) tint d true (sint x) md =
      some (.ok (if x == 0 then d else .vint x)
        (if x == 0 then md else mdReset cfg.cycle md)) := by
  by_cases hx : x = 0
  · simp [hx, assign, skip, isZeroS]
  · have hx2 : (x == 0) = false := by simpa using hx
    cases hc : cfg.cycle <;>
      simp_all [assign, visit, skip, isZeroS, inPtrSet, inElemSet, kindOf,
        resolveTy, assignBasic, unbox, mdReset, convertibleToB, convertB]


/-- Claim C6 (amended): for every live basic-kind source value V — one not
skipped, i.e. not the zero value of its kind — and basic destination type
T, a To call on a zero destination of type T succeeds with the destination
equal to V converted to T when V's type is convertible to T, and fails
with a type error carrying T and V's kind otherwise (the destination is
returned only by successful steps: `assignBasic` produces the error before
any set).  The zero-value proviso is forced by the Skip no-op, see the
counterexample. -/
theorem to_basic_conversion :
    ∀ delta H f root b t, isBasicS b = true → isBasicTy t = true →
      skip b = false →
      (convertibleToB b t = true →
        To delta (From b []) H (f + 1) root (.tptr t) (.vptr (zeroVal t)) =
          some (.ok (convertB b t))) ∧
      (convertibleToB b t = false →
        To delta (From b []) H (f + 1) root (.tptr t) (.vptr (zeroVal t)) =
          some (.error (.errorType (some t) (kindOf b)))) := by
  intro delta H f root b t hbs hbt hsk
  have hres : resolveTy delta (.tptr t) = .tptr t := rfl
  have hsrc : (From b []).src = b := rfl
  constructor
  · intro hc
    rw [To_ptr_eq delta (From b []) H (f + 1) root (.tptr t) t (zeroVal t) hres,
      hsrc, assign_basic_step delta (From b []) H f t (zeroVal t) b _ hbt hbs hsk,
      hc]
    rfl
  · intro hc
    rw [To_ptr_eq delta (From b []) H (f + 1) root (.tptr t) t (zeroVal t) hres,
      hsrc, assign_basic_step delta (From b []) H f t (zeroVal t) b _ hbt hbs hsk,
      hc]
    rfl

/-- Witness for C6: the live int 7 converts into an int destination, and
fails into a bool destination. -/
theorem to_basic_conversion_witness :
    To [] (From (sint 7) []) [] 4 999 (tptr tint) (.vptr (zeroVal tint)) =
      some (.ok (vint 7)) ∧
    To [] (From (sint 7) []) [] 4 999 (tptr tbool) (.vptr (zeroVal tbool)) =
      some (.error (.errorType (some tbool) kint)) :=
  ⟨(to_basic_conversion [] [] 3 999 (sint 7) tint (by decide) (by decide)
      (by decide)).1 (by decide),
   (to_basic_conversion [] [] 3 999 (sint 7) tbool (by decide) (by decide)
      (by decide)).2 (by decide)⟩

/-- Counterexample to C6 as stated: the int value 0 is convertible to
string in Go (the rune conversion, string(0) being the one-character
string U+0000), but the zero int source is skipped, so the call succeeds
with the destination still the empty string — not equal to V converted to
T.  This mirrors Go: ToFrom(&s, 0) leaves s as "" while string(0) is
"\x00". -/
theorem to_basic_conversion_cex :
    To [] (From (sint 0) []) [] 5 999 (tptr tstr) (.vptr (zeroVal tstr)) =
      some (.ok (vstr "")) ∧
    convertibleToB (sint 0) tstr = true ∧
    DVal.vstr "" ≠ convertB (sint 0) tstr := by
  refine ⟨rfl, rfl, ?_⟩
  decide


/-! ## Claim C9: totality of overwrite -/

/-- Counterexample to C9 as stated: the same one-entry map source assigned
into two different initial destinations of the same map type — a nil map
and a map already holding the entry z:9 — both succeed, but yield
different final values: the pre-existing entry z:9 survives (`assignMap`
iterates the source's entries into the existing destination map and never
deletes).  Overwrite is therefore not total. -/
theorem overwrite_total_cex :
    To [] (From (smap 11) []) H9 10 999 (tptr (tmap tstr tint))
        (.vptr .vnilmap) =
      some (.ok (vmap (.pcons (vstr "k") (vint 5) .pnil))) ∧
    To [] (From (smap 11) []) H9 10 999 (tptr (tmap tstr tint))
        (.vptr (vmap (.pcons (vstr "z") (vint 9) .pnil))) =
      some (.ok (vmap (.pcons (vstr "z") (vint 9)
        (.pcons (vstr "k") (vint 5) .pnil)))) ∧
    DVal.vmap (.pcons (vstr "k") (vint 5) .pnil) ≠
      DVal.vmap (.pcons (vstr "z") (vint 9)
        (.pcons (vstr "k") (vint 5) .pnil)) := by
  refine ⟨rfl, rfl, ?_⟩
  decide

/-- Claim C9 (amended): overwrite is total only for basic-kind
destinations fed by live convertible basic sources: there the result of a
successful To call depends only on the source — any two initial
destination values of the type yield the same final value.  For composite
destinations the result may depend on the initial destination (map entries
under keys absent from the source, slice elements beyond the copied
prefix, and fields skipped by zero sources survive), as the counterexample
shows. -/
theorem overwrite_total_basic :
    ∀ delta H f root1 root2 b t dv1 dv2, isBasicS b = true →
      isBasicTy t = true → skip b = false → convertibleToB b t = true →
      To delta (From b []) H (f + 1) root1 (.tptr t) (.vptr dv1) =
        some (.ok (convertB b t)) ∧
      To delta (From b []) H (f + 1) root2 (.tptr t) (.vptr dv2) =
        To delta (From b []) H (f + 1) root1 (.tptr t) (.vptr dv1) := by
  intro delta H f root1 root2 b t dv1 dv2 hbs hbt hsk hc
  have hres : resolveTy delta (.tptr t) = .tptr t := rfl
  have h1 := To_ptr_eq delta (From b []) H (f + 1) root1 (.tptr t) t dv1 hres
  have h2 := To_ptr_eq delta (From b []) H (f + 1) root2 (.tptr t) t dv2 hres
  have hsrc : (From b []).src = b := rfl
  rw [h1, h2, hsrc, assign_basic_step delta (From b []) H f t dv1 b _ hbt hbs hsk,
    assign_basic_step delta (From b []) H f t dv2 b _ hbt hbs hsk, hc]
  exact ⟨rfl, rfl⟩

/-- Witness for C9 (amended): a bool source overwrites the prior values
42 and 43 identically. -/
theorem overwrite_total_basic_witness :
    To [] (From (sbool true) []) [] 4 1 (tptr tbool) (.vptr (vint 42)) =
      some (.ok (vbool true)) ∧
    To [] (From (sbool true) []) [] 4 2 (tptr tbool) (.vptr (vint 43)) =
      To [] (From (sbool true) []) [] 4 1 (tptr tbool) (.vptr (vint 42)) :=
  overwrite_total_basic [] [] 3 1 2 (sbool true) tbool (vint 42) (vint 43)
    (by decide) (by decide) (by decide) (by decide)


/-! ## Claim C5: slice/array list-copy semantics -/

def slOfInts : List Int → SList
  | [] => .lnil
  | x :: r => .lcons (.sint x) (slOfInts r)

/-- A heap holding an int slice's backing array at address 5. -/
def intsHeap (l : List Int) : Heap := [(5, .cellSlice (slOfInts l))]

/-- The per-position effect of the list-copy loop on int elements: each of
the first `min` positions is assigned recursively (a zero source element
is skipped, leaving the destination element), positions beyond the source
length are untouched, source elements beyond the destination length are
dropped. -/
def listCopy : List Int → List DVal → List DVal
  | [], ds => ds
  | _ :: _, [] => []
  | x :: xs, d :: ds => (if x == 0 then d else .vint x) :: listCopy xs ds

lemma listCopy_nil : ∀ xs : List Int, listCopy xs [] = [] := by
  intro xs
  cases xs <;> rfl

lemma listCopy_replicate_zero :
    ∀ l : List Int, listCopy l (List.replicate l.length (.vint 0)) = l.map .vint := by
  intro l
  induction l with
  | nil => rfl
  | cons x xs ih =>
    simp only [List.length_cons, List.replicate_succ, listCopy, List.map_cons, ih]
    by_cases hx : x = 0
    · simp [hx]
    · simp [hx]

lemma listCopy_nonzero :
    ∀ (l : List Int) (ds : List DVal), (∀ x ∈ l, x ≠ 0) →
      listCopy l ds =
        (l.take (min l.length ds.length)).map .vint ++
          ds.drop (min l.length ds.length) := by
  intro l
  induction l with
  | nil => intro ds h; simp [listCopy]
  | cons x xs ih =>
    intro ds h
    cases ds with
    | nil => simp [listCopy_nil]
    | cons d ds =>
      have hx : x ≠ 0 := h x (by simp)
      have hx2 : (x == 0) = false := by simpa using hx
      simp only [listCopy, hx2, List.length_cons, Nat.succ_min_succ,
        List.take_succ_cons, List.map_cons, List.drop_succ_cons,
        List.cons_append, if_false, Bool.false_eq_true]
      rw [ih ds (fun y hy => h y (by simp [hy]))]

lemma dreplicate_ofL (v : DVal) :
    ∀ n, dreplicate n v = DList.ofL (List.replicate n v) := by
  intro n
  induction n with
  | zero => rfl
  | succ m ih => simp [dreplicate, List.replicate_succ, DList.ofL, ih]

lemma getSL_slOfInts :
    ∀ (l : List Int) (i : Nat), i < l.length →
      getSL (slOfInts l) i = .sint (l.getD i 0) := by
  intro l
  induction l with
  | nil => intro i h; simp at h
  | cons x r ih =>
    intro i h
    cases i with
    | zero => rfl
    | succ j =>
      simp only [slOfInts, getSL, List.getD_cons_succ]
      exact ih j (by simpa using h)

lemma indexS_intsHeap (l : List Int) (i : Nat) (h : i < l.length) :
    indexS (intsHeap l) (sslice 5) i = .sint (l.getD i 0) := by
  simp [indexS, intsHeap, heapFind, getSL_slOfInts l i h]

lemma lenS_intsHeap (l : List Int) : lenS (intsHeap l) (sslice 5) = l.length := by
  induction l with
  | nil => rfl
  | cons x r ih => simp_all [lenS, intsHeap, heapFind, slOfInts, lenSL]

/-- The list-copy loop on an int source of length `l.length` whose
elements are read positionally: walking the destination elements from
index `i` produces exactly `listCopy (l.drop i) ds`. -/
lemma assignList_ints (delta : TyEnv) (cfg : Assigner) (H : Heap) (f : Nat)
    (l : List Int) (sv : SVal)
    (hidx : ∀ i, i < l.length → indexS H sv i = .sint (l.getD i 0)) :
    ∀ (ds : List DVal) (i : Nat) (md : Metadata), ∃ md2,
      assignList (assign delta cfg H (f + 1)) tint sv H i l.length
          (DList.ofL ds) md =
        some (.ok (DList.ofL (listCopy (l.drop i) ds)) md2) := by
  intro ds
  induction ds with
  | nil =>
    intro i md
    exact ⟨md, by simp [DList.ofL, assignList, listCopy_nil]⟩
  | cons d ds ih =>
    intro i md
    by_cases hi : i < l.length
    · have hdrop : l.drop i = l.getD i 0 :: l.drop (i + 1) := by
        rw [List.getD_eq_getElem l 0 hi]
        exact List.drop_eq_getElem_cons hi
      obtain ⟨md2, ih2⟩ :=
        ih (i + 1) (if (l.getD i 0) == 0 then md else mdReset cfg.cycle md)
      refine ⟨md2, ?_⟩
      simp only [DList.ofL, assignList, if_pos hi]
      rw [hidx i hi, assign_int_step]
      simp only [bindR]
      rw [ih2]
      simp only [bindR, hdrop, listCopy, DList.ofL]
    · have hdrop : l.drop i = [] := List.drop_eq_nil_of_le (by omega)
      refine ⟨md, ?_⟩
      simp only [DList.ofL, assignList, if_neg hi, hdrop, listCopy]


/-- The one-step unfolding of `assign` at successor fuel (the body of the
recursive step, for controlled rewriting in proofs). -/
lemma assign_succ (delta : TyEnv) (cfg : Assigner) (H : Heap) (f : Nat) (t : Ty)
    (dv : DVal) (cs : Bool) (sv : SVal) (md : Metadata) :
    assign delta cfg H (f + 1) t dv cs sv md =
      if !cs || skip sv then some (.ok dv md)
      else
        match visit cfg.cycle sv md with
        | .vpanic p => some (.panicked p)
        | .vres true _ => some (.err (.cycleErr t (kindOf sv)))
        | .vres false md1 =>
          if inElemSet (kindOf sv) then
            assign delta cfg H f t dv cs (elemS H sv) md1
          else
            match resolveTy delta t with
            | .tptr et => assignPointer (assign delta cfg H f) delta et dv sv md1
            | .tstruct fl =>
              assignStruct (assign delta cfg H f) cfg H t fl dv sv md1
            | .tmap kt vt =>
              assignMap (assign delta cfg H f) delta t kt vt dv sv H md1
            | .tslice et =>
              assignSlice (assign delta cfg H f) delta t et dv sv H md1
            | .tarray _ et =>
              assignArray (assign delta cfg H f) t et dv sv H md1
            | rt => assignBasic t rt sv md1 := rfl

/-- A whole To call on an int-slice source into an existing (non-nil)
slice destination: the result is exactly `listCopy`. -/
lemma to_slice_ints_gen (l : List Int) (ds : List DVal) (f : Nat) :
    To [] (From (sslice 5) []) (intsHeap l) (f + 1 + 1) 999 (tptr (tslice tint))
        (.vptr (vslice (DList.ofL ds))) =
      some (.ok (vslice (DList.ofL (listCopy l ds)))) := by
  rw [To_ptr_eq [] (From (sslice 5) []) (intsHeap l) (f + 1 + 1) 999
    (tptr (tslice tint)) (tslice tint) (vslice (DList.ofL ds)) rfl,
    assign_succ]
  have hS : From (sslice 5) [] = ⟨sslice 5, ["assign"], true⟩ := rfl
  rw [hS]
  have hskip : skip (sslice 5) = false := by decide
  have hvisit : visit true (sslice 5) (initMeta true 999) =
      .vres false ⟨[5, 999], 5⟩ := by decide
  obtain ⟨md2, hal⟩ := assignList_ints [] ⟨sslice 5, ["assign"], true⟩
    (intsHeap l) f l (sslice 5) (indexS_intsHeap l) ds 0 ⟨[5, 999], 5⟩
  simp only [List.drop_zero] at hal
  simp [hskip, hvisit, assignSlice, lenS_intsHeap, hal, bindR, assignRecover,
    inElemSet, inListSet, kindOf, resolveTy]

/-- A whole To call on an int-slice source into a nil slice destination:
the slice is allocated with the source's length (zero-filled) and every
position is then assigned positionally, giving exactly the source mapped
to destination ints. -/
lemma to_slice_ints_nil (l : List Int) (f : Nat) :
    To [] (From (sslice 5) []) (intsHeap l) (f + 1 + 1) 999 (tptr (tslice tint))
        (.vptr .vnilslice) =
      some (.ok (vslice (DList.ofL (l.map .vint)))) := by
  rw [To_ptr_eq [] (From (sslice 5) []) (intsHeap l) (f + 1 + 1) 999
    (tptr (tslice tint)) (tslice tint) .vnilslice rfl, assign_succ]
  have hS : From (sslice 5) [] = ⟨sslice 5, ["assign"], true⟩ := rfl
  rw [hS]
  have hskip : skip (sslice 5) = false := by decide
  have hvisit : visit true (sslice 5) (initMeta true 999) =
      .vres false ⟨[5, 999], 5⟩ := by decide
  obtain ⟨md2, hal⟩ := assignList_ints [] ⟨sslice 5, ["assign"], true⟩
    (intsHeap l) f l (sslice 5) (indexS_intsHeap l)
    (List.replicate l.length (.vint 0)) 0 ⟨[5, 999], 5⟩
  simp only [List.drop_zero, listCopy_replicate_zero] at hal
  simp [hskip, hvisit, assignSlice, lenS_intsHeap, zeroVal, dreplicate_ofL,
    hal, bindR, assignRecover, inElemSet, inListSet, kindOf, resolveTy]

def saOfInts (l : List Int) : SVal := sarray (slOfInts l)

lemma indexS_saOfInts (H : Heap) (l : List Int) (i : Nat) (h : i < l.length) :
    indexS H (saOfInts l) i = .sint (l.getD i 0) := by
  simp [indexS, saOfInts, getSL_slOfInts l i h]

lemma lenSL_slOfInts (l : List Int) : lenSL (slOfInts l) = l.length := by
  induction l with
  | nil => rfl
  | cons x r ih => simp [slOfInts, lenSL, ih]

lemma lenS_saOfInts (H : Heap) (l : List Int) :
    lenS H (saOfInts l) = l.length := by
  simp [lenS, saOfInts, lenSL_slOfInts]

/-- A whole To call on an int-array source into an existing array
destination: the result is exactly `listCopy` (no allocation). -/
lemma to_array_ints_gen (l : List Int) (ds : List DVal) (n : Nat) (f : Nat)
    (hnz : isZeroS (saOfInts l) = false) :
    To [] (From (saOfInts l) []) [] (f + 1 + 1) 999 (tptr (tarray n tint))
        (.vptr (varray (DList.ofL ds))) =
      some (.ok (varray (DList.ofL (listCopy l ds)))) := by
  rw [To_ptr_eq [] (From (saOfInts l) []) [] (f + 1 + 1) 999
    (tptr (tarray n tint)) (tarray n tint) (varray (DList.ofL ds)) rfl,
    assign_succ]
  have hS : From (saOfInts l) [] = ⟨saOfInts l, ["assign"], true⟩ := rfl
  rw [hS]
  have hskip : skip (saOfInts l) = false := by
    simp [saOfInts] at hnz ⊢
    simp [skip, hnz]
  have hvisit : visit true (saOfInts l) (initMeta true 999) =
      .vres false ⟨[999], 0⟩ := by
    simp [visit, inPtrSet, saOfInts, kindOf, initMeta]
  obtain ⟨md2, hal⟩ := assignList_ints [] ⟨saOfInts l, ["assign"], true⟩
    [] f l (saOfInts l) (indexS_saOfInts [] l) ds 0 ⟨[999], 0⟩
  simp only [List.drop_zero] at hal
  simp only [saOfInts] at hskip hvisit hal ⊢
  simp [hskip, hvisit, assignArray, lenS, lenSL_slOfInts, hal, bindR,
    assignRecover, inElemSet, inListSet, kindOf, resolveTy]


lemma saOfInts_not_zero (y : Int) (ys : List Int) (hy : y ≠ 0) :
    isZeroS (saOfInts (y :: ys)) = false := by
  have hy2 : (y == 0) = false := by simpa using hy
  simp [saOfInts, slOfInts, isZeroS, isZeroList, hy2]

/-- Claim C5 (amended): (i) a slice source assigned to a nil slice
destination allocates it with the source's length and assigns every
position, yielding exactly the source's elements (length S, not padded);
(ii) into a non-nil slice destination, exactly the first
`min(S, D)` positions receive the source's elements, the trailing
destination elements are kept, and extra source elements are dropped with
no error; (iii) the same min-copy holds for array destinations (no
allocation); (iv) per the spec's first example, a length-3 slice source
into a length-2 array destination yields the first 2 elements; (v) a
length-2 array source into a *nil* slice destination yields a length-2
result.  (The spec's second example as literally stated — a length-2
source into a destination slice *of length 3* yielding a length-2 result —
is false; see the counterexample: the result keeps length 3.)  The
non-zero hypotheses keep each copied position an actual set (a zero int
source element is skipped, leaving the destination element — claim C4). -/
theorem list_copy_min_semantics :
    (∀ (l : List Int) (f : Nat),
      To [] (From (sslice 5) []) (intsHeap l) (f + 1 + 1) 999
          (tptr (tslice tint)) (.vptr .vnilslice) =
        some (.ok (vslice (DList.ofL (l.map .vint))))) ∧
    (∀ (l : List Int) (ds : List DVal) (f : Nat), (∀ x ∈ l, x ≠ 0) →
      To [] (From (sslice 5) []) (intsHeap l) (f + 1 + 1) 999
          (tptr (tslice tint)) (.vptr (vslice (DList.ofL ds))) =
        some (.ok (vslice (DList.ofL
          ((l.take (min l.length ds.length)).map .vint ++
            ds.drop (min l.length ds.length)))))) ∧
    (∀ (l : List Int) (ds : List DVal) (n : Nat) (f : Nat),
      (∀ x ∈ l, x ≠ 0) → l ≠ [] →
      To [] (From (saOfInts l) []) [] (f + 1 + 1) 999
          (tptr (tarray n tint)) (.vptr (varray (DList.ofL ds))) =
        some (.ok (varray (DList.ofL
          ((l.take (min l.length ds.length)).map .vint ++
            ds.drop (min l.length ds.length)))))) ∧
    To [] (From (sslice 5) []) (intsHeap [1, 2, 3]) 50 999
        (tptr (tarray 2 tint))
        (.vptr (varray (DList.ofL [.vint 0, .vint 0]))) =
      some (.ok (varray (DList.ofL [.vint 1, .vint 2]))) ∧
    To [] (From (saOfInts [1, 2]) []) [] 50 999 (tptr (tslice tint))
        (.vptr .vnilslice) =
      some (.ok (vslice (DList.ofL [.vint 1, .vint 2]))) := by
  refine ⟨?_, ?_, ?_, rfl, rfl⟩
  · intro l f
    exact to_slice_ints_nil l f
  · intro l ds f hnz
    rw [to_slice_ints_gen l ds f, listCopy_nonzero l ds hnz]
  · intro l ds n f hnz hne
    obtain ⟨y, ys, rfl⟩ : ∃ y ys, l = y :: ys := by
      cases l with
      | nil => exact absurd rfl hne
      | cons y ys => exact ⟨y, ys, rfl⟩
    rw [to_array_ints_gen (y :: ys) ds n f
        (saOfInts_not_zero y ys (hnz y (by simp))),
      listCopy_nonzero (y :: ys) ds hnz]

/-- Witness for C5: a length-2 slice source into an existing length-1
slice destination copies one element; a length-1 array source into an
existing length-3 array destination copies the head and keeps the tail. -/
theorem list_copy_min_semantics_witness :
    To [] (From (sslice 5) []) (intsHeap [1, 2]) 2 999 (tptr (tslice tint))
        (.vptr (vslice (DList.ofL [.vint 7]))) =
      some (.ok (vslice (DList.ofL [.vint 1]))) ∧
    To [] (From (saOfInts [4]) []) [] 2 999 (tptr (tarray 3 tint))
        (.vptr (varray (DList.ofL [.vint 7, .vint 8, .vint 9]))) =
      some (.ok (varray (DList.ofL [.vint 4, .vint 8, .vint 9]))) :=
  ⟨list_copy_min_semantics.2.1 [1, 2] [.vint 7] 0 (by decide),
   list_copy_min_semantics.2.2.1 [4] [.vint 7, .vint 8, .vint 9] 3 0
     (by decide) (by decide)⟩

/-- Counterexample to C5 as stated: a source array of length 2 assigned
into a destination slice of length 3 yields a length-3 result — the first
two elements copied and the third kept — not the claimed length-2 result. -/
theorem list_copy_min_semantics_cex :
    To [] (From (saOfInts [1, 2]) []) [] 50 999 (tptr (tslice tint))
        (.vptr (vslice (DList.ofL [.vint 7, .vint 7, .vint 7]))) =
      some (.ok (vslice (DList.ofL [.vint 1, .vint 2, .vint 7]))) ∧
    DVal.vslice (DList.ofL [.vint 1, .vint 2, .vint 7]) ≠
      DVal.vslice (DList.ofL [.vint 1, .vint 2]) := by
  refine ⟨rfl, ?_⟩
  decide


/-! ## Claim C10: the visited set only grows; shared siblings false-flag -/

lemma bindR_ok {α β : Type} (r : Option (ResG α))
    (k : α → Metadata → Option (ResG β)) (b : β) (md3 : Metadata)
    (h : bindR r k = some (.ok b md3)) :
    ∃ a md1, r = some (.ok a md1) ∧ k a md1 = some (.ok b md3) := by
  cases r with
  | none => simp [bindR] at h
  | some res =>
    cases res with
    | ok a md => exact ⟨a, md, rfl, h⟩
    | err e => simp [bindR] at h
    | panicked p => simp [bindR] at h

lemma visit_mono (cyc : Bool) (v : SVal) (md : Metadata) (b : Bool)
    (md2 : Metadata) (h : visit cyc v md = .vres b md2) :
    md.visited ⊆ md2.visited := by
  unfold visit at h
  split at h
  · cases h
    exact List.Subset.refl _
  · split at h
    · cases h
      exact List.Subset.refl _
    · split at h
      · simp at h
      · split at h
        · cases h
          exact List.Subset.refl _
        · split at h
          · cases h
            exact List.Subset.refl _
          · cases h
            exact List.subset_cons_self _ _

/-- A recursive assignment function along which the visited set only
grows. -/
def RecMono (rec : Ty → DVal → Bool → SVal → Metadata → Option (ResG DVal)) :
    Prop :=
  ∀ t dv cs sv md w md2, rec t dv cs sv md = some (.ok w md2) →
    md.visited ⊆ md2.visited

lemma assignPointer_mono (rec : Ty → DVal → Bool → SVal → Metadata →
      Option (ResG DVal)) (hrec : RecMono rec) (delta : TyEnv) (et : Ty)
    (dv : DVal) (sv : SVal) (md : Metadata) (w : DVal) (md2 : Metadata)
    (h : assignPointer rec delta et dv sv md = some (.ok w md2)) :
    md.visited ⊆ md2.visited := by
  unfold assignPointer at h
  obtain ⟨a, md1, h1, h2⟩ := bindR_ok _ _ _ _ h
  cases h2
  exact hrec _ _ _ _ _ _ _ h1

lemma assignFields_mono (rec : Ty → DVal → Bool → SVal → Metadata →
      Option (ResG DVal)) (hrec : RecMono rec) (cfg : Assigner) (H : Heap)
    (sv : SVal) :
    ∀ (fl : FieldList) (dl : DList) (md : Metadata) (dl2 : DList)
      (md2 : Metadata),
      assignFields rec cfg H sv fl dl md = some (.ok dl2 md2) →
      md.visited ⊆ md2.visited
  | .fnil, dl, md, dl2, md2, h => by
    simp only [assignFields] at h
    cases h
    exact List.Subset.refl _
  | .fcons n tg ex ty fr, .dnil, md, dl2, md2, h => by
    simp only [assignFields] at h
    cases h
    exact List.Subset.refl _
  | .fcons n tg ex ty fr, .dcons fv dr, md, dl2, md2, h => by
    simp only [assignFields] at h
    obtain ⟨a1, m1, h1, h2⟩ := bindR_ok _ _ _ _ h
    obtain ⟨a2, m2, h3, h4⟩ := bindR_ok _ _ _ _ h2
    cases h4
    exact ((hrec _ _ _ _ _ _ _ h1).trans
      (assignFields_mono rec hrec cfg H sv fr dr _ _ _ h3))

lemma assignEntries_mono (rec : Ty → DVal → Bool → SVal → Metadata →
      Option (ResG DVal)) (hrec : RecMono rec) (delta : TyEnv) (kt vt : Ty) :
    ∀ es dp md dp2 md2,
      assignEntries rec delta kt vt es dp md = some (.ok dp2 md2) →
      md.visited ⊆ md2.visited := by
  intro es
  induction es with
  | nil =>
    intro dp md dp2 md2 h
    simp only [assignEntries] at h
    cases h
    exact List.Subset.refl _
  | cons e rest ih =>
    intro dp md dp2 md2 h
    simp only [assignEntries] at h
    obtain ⟨a1, m1, h1, h2⟩ := bindR_ok _ _ _ _ h
    obtain ⟨a2, m2, h3, h4⟩ := bindR_ok _ _ _ _ h2
    exact ((hrec _ _ _ _ _ _ _ h1).trans (hrec _ _ _ _ _ _ _ h3)).trans
      (ih _ _ _ _ h4)

lemma assignList_mono (rec : Ty → DVal → Bool → SVal → Metadata →
      Option (ResG DVal)) (hrec : RecMono rec) (et : Ty) (sv : SVal)
    (H : Heap) :
    ∀ (dl : DList) (i n : Nat) (md : Metadata) (dl2 : DList) (md2 : Metadata),
      assignList rec et sv H i n dl md = some (.ok dl2 md2) →
      md.visited ⊆ md2.visited
  | .dnil, i, n, md, dl2, md2, h => by
    simp only [assignList] at h
    cases h
    exact List.Subset.refl _
  | .dcons d ds, i, n, md, dl2, md2, h => by
    simp only [assignList] at h
    by_cases hi : i < n
    · rw [if_pos hi] at h
      obtain ⟨a1, m1, h1, h2⟩ := bindR_ok _ _ _ _ h
      obtain ⟨a2, m2, h3, h4⟩ := bindR_ok _ _ _ _ h2
      cases h4
      exact (hrec _ _ _ _ _ _ _ h1).trans
        (assignList_mono rec hrec et sv H ds _ _ _ _ _ h3)
    · rw [if_neg hi] at h
      cases h
      exact List.Subset.refl _

lemma assignStruct_mono (rec : Ty → DVal → Bool → SVal → Metadata →
      Option (ResG DVal)) (hrec : RecMono rec) (cfg : Assigner) (H : Heap)
    (t : Ty) (fl : FieldList) (dv : DVal) (sv : SVal) (md : Metadata)
    (w : DVal) (md2 : Metadata)
    (h : assignStruct rec cfg H t fl dv sv md = some (.ok w md2)) :
    md.visited ⊆ md2.visited := by
  unfold assignStruct at h
  split at h
  · simp at h
  · obtain ⟨a, m1, h1, h2⟩ := bindR_ok _ _ _ _ h
    cases h2
    exact assignFields_mono rec hrec cfg H sv _ _ _ _ _ h1

lemma assignMap_mono (rec : Ty → DVal → Bool → SVal → Metadata →
      Option (ResG DVal)) (hrec : RecMono rec) (delta : TyEnv) (t : Ty)
    (kt vt : Ty) (dv : DVal) (sv : SVal) (H : Heap) (md : Metadata)
    (w : DVal) (md2 : Metadata)
    (h : assignMap rec delta t kt vt dv sv H md = some (.ok w md2)) :
    md.visited ⊆ md2.visited := by
  unfold assignMap at h
  split at h
  · simp at h
  · obtain ⟨a, m1, h1, h2⟩ := bindR_ok _ _ _ _ h
    cases h2
    exact assignEntries_mono rec hrec delta kt vt _ _ _ _ _ h1

lemma assignSlice_mono (rec : Ty → DVal → Bool → SVal → Metadata →
      Option (ResG DVal)) (hrec : RecMono rec) (delta : TyEnv) (t : Ty)
    (et : Ty) (dv : DVal) (sv : SVal) (H : Heap) (md : Metadata) (w : DVal)
    (md2 : Metadata)
    (h : assignSlice rec delta t et dv sv H md = some (.ok w md2)) :
    md.visited ⊆ md2.visited := by
  unfold assignSlice at h
  split at h
  · simp at h
  · obtain ⟨a, m1, h1, h2⟩ := bindR_ok _ _ _ _ h
    cases h2
    exact assignList_mono rec hrec et sv H _ _ _ _ _ _ h1

lemma assignArray_mono (rec : Ty → DVal → Bool → SVal → Metadata →
      Option (ResG DVal)) (hrec : RecMono rec) (t : Ty) (et : Ty) (dv : DVal)
    (sv : SVal) (H : Heap) (md : Metadata) (w : DVal) (md2 : Metadata)
    (h : assignArray rec t et dv sv H md = some (.ok w md2)) :
    md.visited ⊆ md2.visited := by
  unfold assignArray at h
  split at h
  · simp at h
  · obtain ⟨a, m1, h1, h2⟩ := bindR_ok _ _ _ _ h
    cases h2
    exact assignList_mono rec hrec et sv H _ _ _ _ _ _ h1

lemma assignBasic_mono (t rt : Ty) (sv : SVal) (md : Metadata) (w : DVal)
    (md2 : Metadata) (h : assignBasic t rt sv md = some (.ok w md2)) :
    md.visited ⊆ md2.visited := by
  simp only [assignBasic] at h
  by_cases hc : convertibleToB (unbox sv) rt = true
  · rw [if_pos hc] at h
    cases h
    exact List.Subset.refl _
  · rw [if_neg hc] at h
    simp at h

/-- Along every recursive step of `assign`, at every fuel, the visited
identity set only ever grows. -/
lemma assign_mono (delta : TyEnv) (cfg : Assigner) (H : Heap) :
    ∀ f, RecMono (assign delta cfg H f) := by
  intro f
  induction f with
  | zero =>
    intro t dv cs sv md w md2 h
    simp [assign] at h
  | succ f ih =>
    intro t dv cs sv md w md2 h
    rw [assign_succ] at h
    by_cases hcs : (!cs || skip sv) = true
    · rw [if_pos hcs] at h
      cases h
      exact List.Subset.refl _
    · rw [if_neg hcs] at h
      cases hv : visit cfg.cycle sv md with
      | vpanic p =>
        rw [hv] at h
        simp at h
      | vres cyc md1 =>
        rw [hv] at h
        cases cyc
        · have hsub1 := visit_mono cfg.cycle sv md false md1 hv
          simp only [] at h
          by_cases he : inElemSet (kindOf sv) = true
          · rw [if_pos he] at h
            exact hsub1.trans (ih _ _ _ _ _ _ _ h)
          · rw [if_neg he] at h
            cases hr : resolveTy delta t with
            | tptr et =>
              rw [hr] at h
              exact hsub1.trans (assignPointer_mono _ ih delta et dv sv md1 w
                md2 h)
            | tstruct fl =>
              rw [hr] at h
              exact hsub1.trans (assignStruct_mono _ ih cfg H t fl dv sv md1 w
                md2 h)
            | tmap kt vt =>
              rw [hr] at h
              exact hsub1.trans (assignMap_mono _ ih delta t kt vt dv sv H md1
                w md2 h)
            | tslice et =>
              rw [hr] at h
              exact hsub1.trans (assignSlice_mono _ ih delta t et dv sv H md1 w
                md2 h)
            | tarray n et =>
              rw [hr] at h
              exact hsub1.trans (assignArray_mono _ ih t et dv sv H md1 w md2 h)
            | tbool =>
              rw [hr] at h
              exact hsub1.trans (assignBasic_mono t _ sv md1 w md2 h)
            | tint =>
              rw [hr] at h
              exact hsub1.trans (assignBasic_mono t _ sv md1 w md2 h)
            | tstr =>
              rw [hr] at h
              exact hsub1.trans (assignBasic_mono t _ sv md1 w md2 h)
            | tifc =>
              rw [hr] at h
              exact hsub1.trans (assignBasic_mono t _ sv md1 w md2 h)
            | tnamed n =>
              rw [hr] at h
              exact hsub1.trans (assignBasic_mono t _ sv md1 w md2 h)
        · simp at h

/-- Claim C10: (i) during one run the visited identity set only grows —
whenever a step (with however much of the walk below it) succeeds, the
final metadata's visited set contains the initial one, at every depth;
tokens are never removed when the traversal unwinds.  (ii) Consequently a
source that is a DAG with sharing but no cycle is false-flagged: a struct
whose sibling fields A and B both point to the shared int at address 7,
with the int visit in between resetting the current token, makes the walk
report a cycle error at field B even though no cycle exists. -/
theorem visited_monotone_and_alias_cycle :
    (∀ delta cfg H f t dv cs sv md w md2,
      assign delta cfg H f t dv cs sv md = some (.ok w md2) →
      md.visited ⊆ md2.visited) ∧
    To [] (From src10 []) H10 20 999 t10
        (.vptr (vstruct (.dcons .vnilptr (.dcons .vnilptr .dnil)))) =
      some (.error (.errorCycle (tptr tint) kptr)) := by
  constructor
  · intro delta cfg H f t dv cs sv md w md2 h
    exact assign_mono delta cfg H f t dv cs sv md w md2 h
  · rfl

/-- Witness for C10: a successful concrete run (int 3 into an int slot,
metadata seeded with token 9) whose visited set [9] is contained in the
final visited set. -/
theorem visited_monotone_witness :
    (Metadata.mk [9] 4).visited ⊆ (Metadata.mk [9] 0).visited :=
  visited_monotone_and_alias_cycle.1 [] (From (sint 3) []) [] 1 tint (vint 0)
    true (sint 3) ⟨[9], 4⟩ (vint 3) ⟨[9], 0⟩ (by decide)


/-! ## Claim C1: self-referential sources, cycle detection on and off -/

/- The panicker delegates every Source operation except Pointer to the
wrapped Source (Go: struct embedding promotes the methods); each equation
holds by definition. -/

lemma skip_panicker (sv : SVal) : skip (.spanicker sv) = skip sv := rfl

lemma kindOf_panicker (sv : SVal) : kindOf (.spanicker sv) = kindOf sv := rfl

lemma elemS_panicker (H : Heap) (sv : SVal) :
    elemS H (.spanicker sv) = elemS H sv := rfl

lemma fieldByNameS_panicker (H : Heap) (sv : SVal) (n : String) :
    fieldByNameS H (.spanicker sv) n = fieldByNameS H sv n := rfl

lemma lenS_panicker (H : Heap) (sv : SVal) :
    lenS H (.spanicker sv) = lenS H sv := rfl

lemma indexS_panicker (H : Heap) (sv : SVal) (i : Nat) :
    indexS H (.spanicker sv) i = indexS H sv i := rfl

lemma mapEntriesS_panicker (H : Heap) (sv : SVal) :
    mapEntriesS H (.spanicker sv) = mapEntriesS H sv := rfl

lemma unbox_panicker (sv : SVal) : unbox (.spanicker sv) = unbox sv := rfl

/-- With cycle checks disabled, visit returns immediately: Source.Pointer
is not called and the metadata is untouched. -/
lemma visit_nocycle (v : SVal) (md : Metadata) :
    visit false v md = .vres false md := rfl

lemma assignFields_panicker (rec : Ty → DVal → Bool → SVal → Metadata →
      Option (ResG DVal)) (cfg : Assigner) (H : Heap) (sv : SVal) :
    ∀ (fl : FieldList) (dl : DList) (md : Metadata),
      assignFields rec cfg H (.spanicker sv) fl dl md =
        assignFields rec cfg H sv fl dl md
  | .fnil, dl, _ => by cases dl <;> rfl
  | .fcons _ _ _ _ _, .dnil, _ => rfl
  | .fcons n tg ex ty fr, .dcons fv dr, md => by
    simp only [assignFields, fieldByNameS_panicker,
      assignFields_panicker rec cfg H sv fr dr]

lemma assignList_panicker (rec : Ty → DVal → Bool → SVal → Metadata →
      Option (ResG DVal)) (et : Ty) (H : Heap) (sv : SVal) :
    ∀ (dl : DList) (i n : Nat) (md : Metadata),
      assignList rec et (.spanicker sv) H i n dl md =
        assignList rec et sv H i n dl md
  | .dnil, _, _, _ => rfl
  | .dcons d ds, i, n, md => by
    simp only [assignList, indexS_panicker,
      assignList_panicker rec et H sv ds]

lemma assignStruct_panicker (rec : Ty → DVal → Bool → SVal → Metadata →
      Option (ResG DVal)) (cfg : Assigner) (H : Heap) (t : Ty)
    (fl : FieldList) (dv : DVal) (sv : SVal) (md : Metadata) :
    assignStruct rec cfg H t fl dv (.spanicker sv) md =
      assignStruct rec cfg H t fl dv sv md := by
  simp only [assignStruct, kindOf_panicker, assignFields_panicker]

lemma assignMap_panicker (rec : Ty → DVal → Bool → SVal → Metadata →
      Option (ResG DVal)) (delta : TyEnv) (t : Ty) (kt vt : Ty) (dv : DVal)
    (sv : SVal) (H : Heap) (md : Metadata) :
    assignMap rec delta t kt vt dv (.spanicker sv) H md =
      assignMap rec delta t kt vt dv sv H md := by
  simp only [assignMap, kindOf_panicker, mapEntriesS_panicker]

lemma assignSlice_panicker (rec : Ty → DVal → Bool → SVal → Metadata →
      Option (ResG DVal)) (delta : TyEnv) (t : Ty) (et : Ty) (dv : DVal)
    (sv : SVal) (H : Heap) (md : Metadata) :
    assignSlice rec delta t et dv (.spanicker sv) H md =
      assignSlice rec delta t et dv sv H md := by
  simp only [assignSlice, kindOf_panicker, lenS_panicker, assignList_panicker]

lemma assignArray_panicker (rec : Ty → DVal → Bool → SVal → Metadata →
      Option (ResG DVal)) (t : Ty) (et : Ty) (dv : DVal) (sv : SVal)
    (H : Heap) (md : Metadata) :
    assignArray rec t et dv (.spanicker sv) H md =
      assignArray rec t et dv sv H md := by
  simp only [assignArray, kindOf_panicker, lenS_panicker, assignList_panicker]

lemma assignBasic_panicker (t rt : Ty) (sv : SVal) (md : Metadata) :
    assignBasic t rt (.spanicker sv) md = assignBasic t rt sv md := by
  simp only [assignBasic, unbox_panicker, kindOf_panicker]

/-- With cycle checks disabled, wrapping the source in the panicker — whose
Pointer panics — is unobservable at any fuel: Source.Pointer is never
invoked in that mode. -/
lemma assign_panicker (delta : TyEnv) (cfg : Assigner) (H : Heap)
    (hcyc : cfg.cycle = false) :
    ∀ f t dv cs sv md,
      assign delta cfg H f t dv cs (.spanicker sv) md =
        assign delta cfg H f t dv cs sv md := by
  intro f
  induction f with
  | zero => intro t dv cs sv md; rfl
  | succ f ih =>
    intro t dv cs sv md
    rw [assign_succ, assign_succ, hcyc]
    simp only [skip_panicker, visit_nocycle, kindOf_panicker]
    by_cases he : inElemSet (kindOf sv) = true
    · simp only [he, if_true, elemS_panicker]
    · simp only [he, if_false, Bool.false_eq_true]
      cases hr : resolveTy delta t with
      | tptr et =>
        simp only [assignPointer, ih]
      | tstruct fl => simp only [assignStruct_panicker]
      | tmap kt vt => simp only [assignMap_panicker]
      | tslice et => simp only [assignSlice_panicker]
      | tarray n et => simp only [assignArray_panicker]
      | tbool => simp only [assignBasic_panicker]
      | tint => simp only [assignBasic_panicker]
      | tstr => simp only [assignBasic_panicker]
      | tifc => simp only [assignBasic_panicker]
      | tnamed n => simp only [assignBasic_panicker]


/-- The recursive Go type Cycle as a named type. -/
def tC : Ty := .tnamed "Cycle"

/-- The self-referential struct source at heap address 1. -/
def SC : SVal := .sstruct (.scons "Struct" (.sptr 1) .snil)

/-- The Assigner of `From(&cycle, WithoutCycle())`. -/
def cfgNC : Assigner := ⟨.sptr 1, ["assign"], false⟩

/-- The destination values of type `*Cycle` that arise while walking the
self-referential struct: nil, or a pointer to a one-field struct whose
field is again such a value. -/
inductive CycPtr : DVal → Prop where
  | isnil : CycPtr .vnilptr
  | isptr (fv : DVal) : CycPtr fv → CycPtr (.vptr (.vstruct (.dcons fv .dnil)))

lemma bindR_none {α β : Type} (k : α → Metadata → Option (ResG β)) :
    bindR none k = none := rfl

/-- With cycle detection disabled, the walk of the self-referential struct
source never completes: at every fuel, every entry point of the recursion
loop runs out of fuel.  The four conjuncts are the four shapes of
recursive calls the loop cycles through: destination type Cycle or *Cycle,
source the pointer at address 1 or the struct it points to. -/
lemma cycle_struct_div : ∀ f,
    (∀ md fv, CycPtr fv →
      assign deltaC cfgNC HC f tC (.vstruct (.dcons fv .dnil)) true
        (.sptr 1) md = none) ∧
    (∀ md fv, CycPtr fv →
      assign deltaC cfgNC HC f tC (.vstruct (.dcons fv .dnil)) true
        SC md = none) ∧
    (∀ md dv, CycPtr dv →
      assign deltaC cfgNC HC f (.tptr tC) dv true (.sptr 1) md = none) ∧
    (∀ md dv, CycPtr dv →
      assign deltaC cfgNC HC f (.tptr tC) dv true SC md = none) := by
  intro f
  induction f with
  | zero =>
    exact ⟨fun _ _ _ => rfl, fun _ _ _ => rfl, fun _ _ _ => rfl,
      fun _ _ _ => rfl⟩
  | succ f ih =>
    obtain ⟨ih1, ih2, ih3, ih4⟩ := ih
    have hcyc : cfgNC.cycle = false := rfl
    have hskipP : skip (SVal.sptr 1) = false := by decide
    have hskipS : skip SC = false := by decide
    have helemP : inElemSet (kindOf (SVal.sptr 1)) = true := by decide
    have helemS : inElemSet (kindOf SC) = false := by decide
    have hderef : elemS HC (SVal.sptr 1) = SC := by decide
    refine ⟨?_, ?_, ?_, ?_⟩
    · intro md fv hfv
      rw [assign_succ, hcyc]
      simp only [hskipP, visit_nocycle, helemP, if_true, hderef,
        Bool.not_true, Bool.or_false, Bool.false_or, if_false]
      exact ih2 md fv hfv
    · intro md fv hfv
      rw [assign_succ, hcyc]
      simp only [hskipS, visit_nocycle, helemS, Bool.not_true, Bool.or_false,
        Bool.false_or, if_false, Bool.false_eq_true]
      have hres : resolveTy deltaC tC =
          .tstruct (.fcons "Struct" [] true (.tptr tC) .fnil) := by decide
      rw [hres]
      have hkS : (kindOf SC != GoKind.kstruct) = false := by decide
      simp only [assignStruct, hkS, Bool.false_eq_true, if_false]
      have hfb : fieldByNameS HC SC (nameOf cfgNC [] "Struct") = .sptr 1 := by
        decide
      simp only [assignFields, hfb]
      rw [ih3 md fv hfv]
      rfl
    · intro md dv hdv
      rw [assign_succ, hcyc]
      simp only [hskipP, visit_nocycle, helemP, if_true, hderef,
        Bool.not_true, Bool.or_false, Bool.false_or, if_false]
      exact ih4 md dv hdv
    · intro md dv hdv
      rw [assign_succ, hcyc]
      simp only [hskipS, visit_nocycle, helemS, Bool.not_true, Bool.or_false,
        Bool.false_or, if_false, Bool.false_eq_true]
      have hres : resolveTy deltaC (.tptr tC) = .tptr tC := rfl
      rw [hres]
      cases hdv with
      | isnil =>
        have hz : zeroVal (resolveTy deltaC tC) =
            DVal.vstruct (.dcons .vnilptr .dnil) := by decide
        simp only [assignPointer, hz]
        rw [ih2 md .vnilptr CycPtr.isnil]
        rfl
      | isptr fv hfv =>
        simp only [assignPointer]
        rw [ih2 md fv hfv]
        rfl


/-- Claim C1 (amended): with cycle detection enabled (the default), the
three self-referential sources — the struct pointing to itself, the map
containing itself as a value, the slice containing a pointer to itself —
terminate with a cycle error.  With cycle detection disabled, the source's
identity operation Pointer is never invoked (wrapping any source in the
Pointer-panicking panicker is unobservable at every step and fuel), and
the self-referential map and slice inputs succeed and terminate (their
interface-typed destinations box the reference without further
traversal); but the struct-pointing-to-itself input does not terminate
(see the counterexample). -/
theorem cycle_detection_semantics :
    To deltaC (From (.sptr 1) []) HC 50 999 (.tptr tC)
        (.vptr (.vstruct (.dcons .vnilptr .dnil))) =
      some (.error (.errorCycle (.tptr tC) .kptr)) ∧
    To [] (From (.smap 21) []) HM 50 999 (.tptr (.tmap .tstr .tifc))
        (.vptr .vnilmap) =
      some (.error (.errorCycle .tifc .kmap)) ∧
    To [] (From (.sslice 31) []) HS 50 999 (.tptr (.tslice .tifc))
        (.vptr .vnilslice) =
      some (.error (.errorCycle .tifc .kslice)) ∧
    (∀ delta (cfg : Assigner) H f t dv cs sv md, cfg.cycle = false →
      assign delta cfg H f t dv cs (.spanicker sv) md =
        assign delta cfg H f t dv cs sv md) ∧
    To [] (From (.smap 21) [WithoutCycle]) HM 50 999
        (.tptr (.tmap .tstr .tifc)) (.vptr .vnilmap) =
      some (.ok (.vmap (.pcons (.vstr "k") (.vifc (.smap 21)) .pnil))) ∧
    To [] (From (.sslice 31) [WithoutCycle]) HS 50 999
        (.tptr (.tslice .tifc)) (.vptr .vnilslice) =
      some (.ok (.vslice (.dcons (.vifc (.sslice 31)) .dnil))) ∧
    (∀ fuel, To deltaC (From (.sptr 1) [WithoutCycle]) HC fuel 999 (.tptr tC)
        (.vptr (.vstruct (.dcons .vnilptr .dnil))) = none) := by
  refine ⟨rfl, rfl, rfl, ?_, rfl, rfl, ?_⟩
  · intro delta cfg H f t dv cs sv md hcyc
    exact assign_panicker delta cfg H hcyc f t dv cs sv md
  · intro fuel
    rw [To_ptr_eq deltaC (From (.sptr 1) [WithoutCycle]) HC fuel 999
      (.tptr tC) tC (.vstruct (.dcons .vnilptr .dnil)) rfl]
    have hcfg : From (.sptr 1) [WithoutCycle] = cfgNC := rfl
    rw [hcfg, show cfgNC.src = .sptr 1 from rfl,
      show initMeta cfgNC.cycle 999 = ⟨[], 0⟩ from rfl,
      (cycle_struct_div fuel).1 ⟨[], 0⟩ .vnilptr CycPtr.isnil]
    rfl

/-- Witness for C1 (amended): in WithoutCycle mode, a panicker-wrapped int
source behaves exactly like the bare int source. -/
theorem cycle_detection_semantics_witness :
    assign [] ⟨.sint 1, ["assign"], false⟩ [] 3 .tint (.vint 0) true
        (.spanicker (.sint 1)) ⟨[], 0⟩ =
      assign [] ⟨.sint 1, ["assign"], false⟩ [] 3 .tint (.vint 0) true
        (.sint 1) ⟨[], 0⟩ :=
  cycle_detection_semantics.2.2.2.1 [] ⟨.sint 1, ["assign"], false⟩ [] 3
    .tint (.vint 0) true (.sint 1) ⟨[], 0⟩ rfl

set_option maxRecDepth 4000 in
/-- Counterexample to C1 as stated: with cycle detection disabled, the
struct-pointing-to-itself input does NOT succeed and terminate.  With
detection enabled the very same input finishes (with a cycle error)
within fuel 6; with detection disabled the walk has still produced no
result after 100 recursive steps — and by the last conjunct of
`cycle_detection_semantics` it never does, at any fuel (Go: unbounded
recursion until the stack is exhausted, which recover cannot intercept). -/
theorem cycle_disabled_diverges :
    To deltaC (From (.sptr 1) []) HC 6 999 (.tptr tC)
        (.vptr (.vstruct (.dcons .vnilptr .dnil))) =
      some (.error (.errorCycle (.tptr tC) .kptr)) ∧
    To deltaC (From (.sptr 1) [WithoutCycle]) HC 100 999 (.tptr tC)
        (.vptr (.vstruct (.dcons .vnilptr .dnil))) = none := ⟨rfl, rfl⟩

end AssignModel
